import Mathlib

/-!
Verification of the node-event-storage storage layer.

The repository sources available are `src/EventStore.js` together with the
test suites for `Partition`, `Index` and `Consumer`. The implementations of
`Partition`, `Index`, `Storage` and `Consumer` themselves are not among the
sources, so those components are modelled from the specification document
(each such definition carries a doc comment starting `Modelled from the
spec:`). `EventStore` is embedded directly from `src/EventStore.js`.

Files are modelled as lists of bytes (`List Nat`, each element < 256 where
relevant), buffered writers as a pair of byte lists (flushed file contents
plus an in-memory write buffer), and fallible operations return `Option`
or `Except`.
-/

namespace NES

/-- Big-endian encoding of a 32-bit unsigned integer, as in
`Buffer.writeUInt32BE`: four bytes, most significant first. -/
def u32BE (n : Nat) : List Nat :=
  [n / 2 ^ 24 % 256, n / 2 ^ 16 % 256, n / 2 ^ 8 % 256, n % 256]

/-- Decode a big-endian 32-bit unsigned integer found at byte offset `pos`
of `data`, as in `Buffer.readUInt32BE`. Out-of-range bytes read as 0. -/
def decodeU32At (data : List Nat) (pos : Nat) : Nat :=
  2 ^ 24 * data.getD pos 0 + 2 ^ 16 * data.getD (pos + 1) 0 +
    2 ^ 8 * data.getD (pos + 2) 0 + data.getD (pos + 3) 0

/-- Modelled from the spec: `src/Partition.js` is not among the sources (only
`test/Partition.spec.js` is). A partition is one append-only document log
file. The 8-byte magic header `nesprt01` is kept outside `file`: positions
returned by `write` and consumed by `readFrom` are relative to the end of
the header, matching `readFrom(0)` reading the first document in the tests.
`file` holds the flushed record bytes, `buffer` the not-yet-flushed record
bytes; the buffer is a logical extension of the file. -/
structure Partition where
  file : List Nat
  buffer : List Nat
  isOpen : Bool
  dirtyReads : Bool
  writeBufferSize : Nat
deriving DecidableEq, Repr

/-- Modelled from the spec: total size of the partition content, flushed
bytes plus buffered bytes (the header is not counted). -/
def Partition.size (p : Partition) : Nat :=
  p.file.length + p.buffer.length

/-- Modelled from the spec: one document record on disk —
`u32 BE length` then the payload bytes then the `0x0A` trailer byte. -/
def encodeRecord (x : List Nat) : List Nat :=
  u32BE x.length ++ (x ++ [10])

/-- Modelled from the spec: `Partition.write(bytes)` returns the byte
position at which the record header starts, or `none` (JS `false`) when the
partition is not open. When the record would exceed the remaining buffer
capacity the buffer is flushed first; records larger than the whole buffer
are flushed directly to the file. -/
def Partition.write (p : Partition) (x : List Nat) : Option (Nat × Partition) :=
  if p.isOpen = false then none
  else
    let record := encodeRecord x
    let pos := p.size
    if p.writeBufferSize < record.length then
      some (pos, { p with file := p.file ++ p.buffer ++ record, buffer := [] })
    else if p.writeBufferSize < p.buffer.length + record.length then
      some (pos, { p with file := p.file ++ p.buffer, buffer := record })
    else
      some (pos, { p with buffer := p.buffer ++ record })

/-- Result of `Partition.readFrom`: a payload, the `false` sentinel, or one
of the structural errors `CorruptFile` / `InvalidDataSize`. -/
inductive ReadResult
  | ok (payload : List Nat)
  | notFound
  | corrupt
  | invalidDataSize
deriving DecidableEq, Repr

/-- Modelled from the spec: after the length prefix has been decoded,
extract the payload and verify the `0x0A` trailer; its absence marks a torn
write and raises `CorruptFile`. -/
def readPayload (data : List Nat) (pos len : Nat) : ReadResult :=
  if data.getD (pos + 4 + len) 0 ≠ 10 then .corrupt
  else .ok ((data.drop (pos + 4)).take len)

/-- Modelled from the spec: read the length prefix at `pos`, then that many
payload bytes. Positions at or beyond `size` give the `false` sentinel, as
do reads inside the write buffer when dirty reads are disabled. A missing
`0x0A` trailer (torn write) raises `CorruptFile`; a provided expected size
differing from the on-disk length raises `InvalidDataSize`. -/
def Partition.readFrom (p : Partition) (pos : Nat) (expectedSize : Option Nat) :
    ReadResult :=
  if p.isOpen = false then .notFound
  else if p.size ≤ pos then .notFound
  else if p.dirtyReads = false ∧ p.file.length ≤ pos then .notFound
  else
    let data := if p.dirtyReads then p.file ++ p.buffer else p.file
    if data.length < pos + 4 then .corrupt
    else
      let len := decodeU32At data pos
      match expectedSize with
      | some s => if s ≠ len then .invalidDataSize else readPayload data pos len
      | none => readPayload data pos len

/-- Modelled from the spec: `close()` flushes the buffer into the file and
releases the descriptor. -/
def Partition.close (p : Partition) : Partition :=
  { p with file := p.file ++ p.buffer, buffer := [], isOpen := false }

/-- Modelled from the spec: `open()` validates or creates the header and
makes the partition active; the on-disk bytes are unchanged. -/
def Partition.openP (p : Partition) : Partition :=
  { p with isOpen := true }

/-- Result of `Partition.truncate`: the updated partition, or the
`InvalidBoundary` error with the partition left unchanged. -/
inductive TruncResult
  | ok (p : Partition)
  | invalidBoundary
deriving DecidableEq, Repr

/-- Modelled from the spec: the byte positions at which document records
start, obtained by walking the length prefixes from position 0. `fuel`
bounds the recursion; `data.length + 1` steps always suffice because every
record occupies at least five bytes. -/
def recStartsAux (data : List Nat) : Nat → Nat → List Nat
  | 0, _ => []
  | fuel + 1, pos =>
    if data.length ≤ pos then []
    else pos :: recStartsAux data fuel (pos + 4 + decodeU32At data pos + 1)

/-- Modelled from the spec: the set of start-of-record byte positions of a
partition's content bytes. -/
def recStarts (data : List Nat) : List Nat :=
  recStartsAux data (data.length + 1) 0

/-- Modelled from the spec: `truncate(position)` is legal only when
`position` is at or beyond the current size (no-op), negative (remove all
content, the header stays), or exactly the start of an existing record
(drop the tail from there on, buffered bytes above the cut included). Any
other position raises `InvalidBoundary`. -/
def Partition.truncate (p : Partition) (pos : Int) : TruncResult :=
  if (p.size : Int) ≤ pos then .ok p
  else if pos < 0 then .ok { p with file := [], buffer := [] }
  else
    let data := p.file ++ p.buffer
    if pos.toNat ∈ recStarts data then
      .ok { p with file := data.take pos.toNat, buffer := [] }
    else .invalidBoundary

/-- An index entry: `{number, position, size, partition}`, the fixed-size
record of an index file. -/
structure Entry where
  number : Nat
  position : Nat
  size : Nat
  partition : Nat
deriving DecidableEq, Repr

/-- Modelled from the spec: `src/Index.js` is not among the sources (only
its test suite is). The in-memory view of an index: `file` holds the
flushed entries, `buffer` the appended-but-unflushed ones; `length` counts
both. Slots are 1-based. -/
structure IndexState where
  file : List Entry
  buffer : List Entry
  isOpen : Bool
deriving DecidableEq, Repr

/-- Modelled from the spec: all entries of the index, flushed plus
buffered, in slot order (slot `i` is element `i - 1`). -/
def IndexState.entries (idx : IndexState) : List Entry :=
  idx.file ++ idx.buffer

/-- Modelled from the spec: `length` — number of entries, buffered ones
included. -/
def IndexState.length (idx : IndexState) : Nat :=
  idx.entries.length

/-- Modelled from the spec: `close()` flushes the buffered entries into the
file. -/
def IndexState.closeI (idx : IndexState) : IndexState :=
  { file := idx.file ++ idx.buffer, buffer := [], isOpen := false }

/-- Modelled from the spec: `open()` re-reads the entries from the file. -/
def IndexState.openI (idx : IndexState) : IndexState :=
  { idx with isOpen := true }

/-- Modelled from the spec: `truncate(afterSlot)` keeps slots
`1..afterSlot` and drops the rest, buffered tail entries included; values
at or above `length` are no-ops; negative values clear the index. -/
def IndexState.truncate (idx : IndexState) (k : Int) : IndexState :=
  if (idx.length : Int) ≤ k then idx
  else { file := idx.entries.take k.toNat, buffer := [], isOpen := idx.isOpen }

/-- An argument to `range` as it arrives from JavaScript: a number or a
non-numeric value. -/
inductive RangeArg
  | num (i : Int)
  | nan
deriving DecidableEq, Repr

/-- Modelled from the spec: a negative endpoint counts from the end,
`-1` denoting the last slot. -/
def normEndpoint (len : Nat) (x : Int) : Int :=
  if x < 0 then (len : Int) + x + 1 else x

/-- Modelled from the spec: `validRange(from, until)` — both endpoints must
lie in `[1, length]` and `from ≤ until`. -/
def validRange (lo hi : Int) (len : Nat) : Bool :=
  decide (1 ≤ lo ∧ lo ≤ hi ∧ hi ≤ (len : Int))

/-- Modelled from the spec: `range(from, to)` — inclusive on both ends,
negative endpoints counting from the end; returns the `false` sentinel
(`none`) when the index is closed, an argument is non-numeric, or the
normalized range is invalid. -/
def IndexState.range (idx : IndexState) (a b : RangeArg) :
    Option (List Entry) :=
  if idx.isOpen = false then none
  else
    match a, b with
    | .num f, .num t =>
      let lo := normEndpoint idx.length f
      let hi := normEndpoint idx.length t
      if validRange lo hi idx.length then
        some ((idx.entries.take hi.toNat).drop (lo.toNat - 1))
      else none
    | _, _ => none

/-- Modelled from the spec: the binary-search loop of `Index.find` with
`min == false`. The interval `[low, high]` shrinks keeping every slot
below `low` at or below the target and every slot above `high` strictly
above it; when the interval empties, `high` is the largest qualifying slot
(0 when none qualifies). `fuel` bounds the recursion; the interval width
plus one always suffices. -/
def bsearchMax (num : Nat → Nat) (target : Nat) : Nat → Nat → Nat → Nat
  | 0, _, high => high
  | fuel + 1, low, high =>
    if high < low then high
    else if num ((low + high) / 2) ≤ target then
      bsearchMax num target fuel ((low + high) / 2 + 1) high
    else
      bsearchMax num target fuel low ((low + high) / 2 - 1)

/-- Modelled from the spec: the binary-search loop of `Index.find` with
`min == true`. Every slot below `low` is strictly below the target and
every slot above `high` at or above it; when the interval empties, `low`
is the smallest qualifying slot, or 0 when `low` exceeds the index length
(target exceeds all stored numbers). -/
def bsearchMin (num : Nat → Nat) (target n : Nat) : Nat → Nat → Nat → Nat
  | 0, low, _ => if n < low then 0 else low
  | fuel + 1, low, high =>
    if high < low then (if n < low then 0 else low)
    else if num ((low + high) / 2) < target then
      bsearchMin num target n fuel ((low + high) / 2 + 1) high
    else
      bsearchMin num target n fuel low ((low + high) / 2 - 1)

/-- Modelled from the spec: `find(target, min=false)` — binary search over
the sequence of entry numbers (assumed monotonically non-decreasing),
slot `i` carrying the number of entry `i` (1-based). -/
def IndexState.find (idx : IndexState) (target : Nat) (minFlag : Bool) : Nat :=
  let nums := idx.entries.map Entry.number
  let num := fun i => nums.getD (i - 1) 0
  if minFlag then bsearchMin num target nums.length (nums.length + 1) 1
    nums.length
  else bsearchMax num target (nums.length + 1) 1 nums.length

/-- The 50-entry index of the `find` test scenario
(`setupIndexWithEntries(50, i => 2*i)`): entry at slot `i` carries number
`2 i` and position `i`. -/
def mapperIndex50 : IndexState :=
  IndexState.mk ((List.range 50).map fun k => Entry.mk (2 * (k + 1)) (k + 1) 0 0)
    [] true

/-- Big-endian encoding of a 64-bit unsigned integer, eight bytes with the
most significant first. -/
def u64BE (n : Nat) : List Nat :=
  [n / 2 ^ 56 % 256, n / 2 ^ 48 % 256, n / 2 ^ 40 % 256, n / 2 ^ 32 % 256,
    n / 2 ^ 24 % 256, n / 2 ^ 16 % 256, n / 2 ^ 8 % 256, n % 256]

/-- Modelled from the spec: the packed 20-byte on-disk form of one `Entry` —
`u32 number`, `u64 position`, `u32 size`, `u32 partition` (the spec leaves
the per-field byte order to the implementation; the model uses big-endian
throughout). -/
def encodeEntry (e : Entry) : List Nat :=
  u32BE e.number ++ u64BE e.position ++ u32BE e.size ++ u32BE e.partition

/-- Modelled from the spec: the packed entry records of an index file. -/
def encodeEntries (es : List Entry) : List Nat :=
  (es.map encodeEntry).flatten

/-- The fixed byte size of one index entry record (default 20). -/
def entrySize : Nat := 20

/-- The 8-byte index file magic `nesidx01` as ASCII codes. -/
def magicIdx : List Nat :=
  [110, 101, 115, 105, 100, 120, 48, 49]

/-- Modelled from the spec: the bytes of a flushed, closed index file —
magic, `u32 BE` metadata length, the metadata blob terminated by a
newline (the length counts the newline), then the packed entries. -/
def buildIndexFile (meta : List Nat) (es : List Entry) : List Nat :=
  magicIdx ++ (u32BE (meta.length + 1) ++ ((meta ++ [10]) ++ encodeEntries es))

/-- The open-time errors of an index file, from spec section 4.2. -/
inductive IndexError
  | invalidFileHeader
  | invalidFileVersion
  | invalidMetadataSize
  | invalidMetadata
  | indexMetadataMismatch
  | indexFileCorrupt
deriving DecidableEq, Repr

/-- The in-memory result of a successful index open: the recovered
metadata blob (newline terminator stripped) and the raw entry bytes. -/
structure IndexHandle where
  metadata : List Nat
  entryData : List Nat
deriving DecidableEq, Repr

/-- Modelled from the spec: the final open-time check — the entry body
length must be a multiple of the entry size, otherwise the file is
corrupt (`IndexFileCorrupt`). -/
def openIndexBody (file : List Nat) (mlen : Nat) (meta : List Nat) :
    Except IndexError IndexHandle :=
  if (file.length - (12 + mlen)) % entrySize ≠ 0 then .error .indexFileCorrupt
  else .ok { metadata := meta, entryData := file.drop (12 + mlen) }

/-- Modelled from the spec: opening an index file validates the magic and
version, reads and validates the metadata header (`InvalidMetadataSize`,
`InvalidMetadata`), compares a metadata blob presented at open against the
stored one (`IndexMetadataMismatch`), and finally checks that the entry
body length is a multiple of the entry size (`IndexFileCorrupt`). An empty
file is created fresh with the presented metadata. -/
def openIndex (file : List Nat) (provided : Option (List Nat)) :
    Except IndexError IndexHandle :=
  if file.length = 0 then
    .ok { metadata := provided.getD [], entryData := [] }
  else if file.take 6 ≠ magicIdx.take 6 then .error .invalidFileHeader
  else if file.take 8 ≠ magicIdx then .error .invalidFileVersion
  else
    let mlen := decodeU32At file 8
    if mlen = 0 then .error .invalidMetadataSize
    else if file.length < 12 + mlen then .error .indexFileCorrupt
    else
      let blob := (file.drop 12).take mlen
      if blob.getD (mlen - 1) 0 ≠ 10 then .error .invalidMetadata
      else
        let meta := blob.take (mlen - 1)
        match provided with
        | some m =>
          if m ≠ meta then .error .indexMetadataMismatch
          else openIndexBody file mlen meta
        | none => openIndexBody file mlen meta

/-- Modelled from the spec: `src/Consumer.js` is not among the sources
(only its test suite is). A durable tailing cursor over one index:
`position` is the last processed slot (persisted), `started` whether the
consumer is currently tailing, and `emitted` the documents delivered to
the `data` listener so far, in order. Documents are abstract (`Nat`). -/
structure ConsumerState where
  position : Nat
  started : Bool
  emitted : List Nat
deriving DecidableEq, Repr

/-- Modelled from the spec: `start()` — a no-op when already tailing;
otherwise drain `index.range(position + 1, index.length)` synchronously,
emitting each document, then follow live with `position` advanced to the
index length. `idx` is the index's resolved document sequence. -/
def ConsumerState.start (idx : List Nat) (c : ConsumerState) : ConsumerState :=
  if c.started then c
  else
    ConsumerState.mk idx.length true (c.emitted ++ idx.drop c.position)

/-- Modelled from the spec: subscribing a `data` listener idempotently
enters the tailing state — listener registration triggers `start()`. -/
def ConsumerState.addDataListener (idx : List Nat) (c : ConsumerState) :
    ConsumerState :=
  ConsumerState.start idx c

/-- Modelled from the spec: a new document arriving through the storage's
new-entry signal is emitted and advances the persisted position when the
consumer is tailing; a stopped consumer ignores it (it will be picked up
by the catch-up drain of the next `start()`). -/
def ConsumerState.newDocument (c : ConsumerState) (d : Nat) : ConsumerState :=
  if c.started then
    ConsumerState.mk (c.position + 1) true (c.emitted ++ [d])
  else c

/-- The `ExpectedVersion.Any` constant of `src/EventStore.js`. -/
def ExpectedVersionAny : Int := -1

/-- The `ExpectedVersion.EmptyStream` constant of `src/EventStore.js`. -/
def ExpectedVersionEmptyStream : Int := 0

/-- The part of the `EventStore` state (src/EventStore.js) that `commit`
and `getEventStream` touch: the `streams` map, modelled as an association
list from stream name to the stream index's current length, and the log
of events written to `storage`. Event payloads are abstract (`Nat`);
the uuid and timestamp baked into each stored event are environmental
inputs that do not affect control flow. -/
structure EventStoreState where
  streams : List (String × Nat)
  written : List Nat
deriving DecidableEq, Repr

/-- The throwing outcomes of `EventStore.commit`. -/
inductive CommitError
  | noStreamName
  | optimisticConcurrency
deriving DecidableEq, Repr

/-- `EventStore.commit` from src/EventStore.js lines 65-98: requires a
stream name; creates the stream when missing (its fresh index has length
0); when `expectedVersion` is not `Any`, compares the stream index length
with it and throws `OptimisticConcurrencyError` before any storage write
on mismatch; otherwise writes every event to storage in order. A JS
caller may omit `events` entirely (rejected there with its own error);
a Lean caller always passes a list, so that guard has no counterpart
here. -/
def commit (st : EventStoreState) (streamName : String) (events : List Nat)
    (expectedVersion : Int) : Except CommitError EventStoreState :=
  if streamName = "" then .error .noStreamName
  else
    let st1 := if (st.streams.lookup streamName).isNone then
        EventStoreState.mk ((streamName, 0) :: st.streams) st.written
      else st
    if expectedVersion ≠ ExpectedVersionAny then
      if ((st1.streams.lookup streamName).getD 0 : Int) ≠ expectedVersion then
        .error .optimisticConcurrency
      else EventStoreState.mk st1.streams (st1.written ++ events) |> .ok
    else EventStoreState.mk st1.streams (st1.written ++ events) |> .ok

/-- `EventStore.getEventStream` from src/EventStore.js lines 108-114:
returns `false` (`none`) when the stream name is unknown, otherwise a new
`EventStream` over `storage.readRange(minRevision + 1, maxRevision + 1,
streamIndex)`; `src/EventStream.js` is not among the sources, so the
stream is modelled as the slot range the wrapped `readRange` call was
given. The store state is returned alongside to express that the call
does not mutate it. -/
def getEventStream (st : EventStoreState) (streamName : String)
    (minRevision maxRevision : Int) :
    Option (Int × Int) × EventStoreState :=
  if (st.streams.lookup streamName).isNone then (none, st)
  else (some (minRevision + 1, maxRevision + 1), st)

end NES

namespace NES

theorem u32BE_length (n : Nat) : (u32BE n).length = 4 := rfl

theorem decodeU32At_encode (A B : List Nat) (n pos : Nat)
    (hA : A.length = pos) (hn : n < 2 ^ 32) :
    decodeU32At (A ++ (u32BE n ++ B)) pos = n := by
  have h0 : (A ++ (u32BE n ++ B)).getD pos 0 = n / 2 ^ 24 % 256 := by
    rw [List.getD_append_right _ _ _ _ (by omega)]
    simp [u32BE, hA]
  have h1 : (A ++ (u32BE n ++ B)).getD (pos + 1) 0 = n / 2 ^ 16 % 256 := by
    rw [List.getD_append_right _ _ _ _ (by omega)]
    have : pos + 1 - A.length = 1 := by omega
    rw [this]
    simp [u32BE]
  have h2 : (A ++ (u32BE n ++ B)).getD (pos + 2) 0 = n / 2 ^ 8 % 256 := by
    rw [List.getD_append_right _ _ _ _ (by omega)]
    have : pos + 2 - A.length = 2 := by omega
    rw [this]
    simp [u32BE]
  have h3 : (A ++ (u32BE n ++ B)).getD (pos + 3) 0 = n % 256 := by
    rw [List.getD_append_right _ _ _ _ (by omega)]
    have : pos + 3 - A.length = 3 := by omega
    rw [this]
    simp [u32BE]
  rw [decodeU32At, h0, h1, h2, h3]
  have e0 : n = 256 * (n / 256) + n % 256 := (Nat.div_add_mod n 256).symm
  have e1 : n / 256 = 256 * (n / 256 / 256) + n / 256 % 256 :=
    (Nat.div_add_mod (n / 256) 256).symm
  have e2 : n / 256 / 256 = 256 * (n / 256 / 256 / 256) + n / 256 / 256 % 256 :=
    (Nat.div_add_mod (n / 256 / 256) 256).symm
  have d1 : n / 2 ^ 8 = n / 256 := rfl
  have d2 : n / 2 ^ 16 = n / 256 / 256 := by
    rw [Nat.div_div_eq_div_mul]
    norm_num
  have d3 : n / 2 ^ 24 = n / 256 / 256 / 256 := by
    rw [Nat.div_div_eq_div_mul, Nat.div_div_eq_div_mul]
    norm_num
  have hb : n / 256 / 256 / 256 < 256 := by
    rw [Nat.div_div_eq_div_mul, Nat.div_div_eq_div_mul]
    omega
  have hm : n / 256 / 256 / 256 % 256 = n / 256 / 256 / 256 := Nat.mod_eq_of_lt hb
  rw [d1, d2, d3, hm]
  omega

theorem encodeRecord_length (x : List Nat) :
    (encodeRecord x).length = x.length + 5 := by
  simp [encodeRecord, u32BE]

theorem Partition.write_spec (p : Partition) (x : List Nat)
    (hopen : p.isOpen = true) :
    ∃ p', p.write x = some (p.size, p') ∧
      p'.file ++ p'.buffer = (p.file ++ p.buffer) ++ encodeRecord x ∧
      p'.isOpen = true ∧ p'.dirtyReads = p.dirtyReads := by
  rw [Partition.write, hopen]
  simp only [Bool.true_eq_false, if_false]
  by_cases h1 : p.writeBufferSize < (encodeRecord x).length
  · exact ⟨{ p with file := p.file ++ p.buffer ++ encodeRecord x, buffer := [] },
      by rw [if_pos h1, hopen], by simp, hopen, rfl⟩
  · rw [if_neg h1]
    by_cases h2 : p.writeBufferSize < p.buffer.length + (encodeRecord x).length
    · exact ⟨{ p with file := p.file ++ p.buffer, buffer := encodeRecord x },
        by rw [if_pos h2, hopen], by simp, hopen, rfl⟩
    · exact ⟨{ p with buffer := p.buffer ++ encodeRecord x },
        by rw [if_neg h2, hopen], by simp, hopen, rfl⟩

theorem Partition.readFrom_append_ok (p : Partition) (C x : List Nat)
    (hopen : p.isOpen = true) (hdirty : p.dirtyReads = true)
    (hdata : p.file ++ p.buffer = C ++ encodeRecord x)
    (hx : x.length < 2 ^ 32) :
    p.readFrom C.length none = .ok x := by
  have hlen : p.file.length + p.buffer.length = C.length + (x.length + 5) := by
    have h := congrArg List.length hdata
    rw [List.length_append, List.length_append, encodeRecord_length] at h
    omega
  have hsize : p.size = C.length + (x.length + 5) := by
    rw [Partition.size]
    exact hlen
  rw [Partition.readFrom, hopen, hdirty]
  simp only [Bool.true_eq_false, if_false, if_true, hsize]
  rw [if_neg (by omega), if_neg (by simp)]
  rw [if_neg (by rw [List.length_append]; omega)]
  have hrec : p.file ++ p.buffer = C ++ (u32BE x.length ++ (x ++ [10])) := by
    rw [hdata, encodeRecord]
  have hdec : decodeU32At (p.file ++ p.buffer) C.length = x.length := by
    rw [hrec]
    exact decodeU32At_encode C (x ++ [10]) x.length C.length rfl hx
  rw [hdec, readPayload]
  have htrail : (p.file ++ p.buffer).getD (C.length + 4 + x.length) 0 = 10 := by
    have hsplit : p.file ++ p.buffer = ((C ++ u32BE x.length) ++ x) ++ [10] := by
      rw [hrec]
      simp
    rw [hsplit]
    rw [List.getD_append_right _ _ _ _ (by simp [u32BE_length]; omega)]
    have : C.length + 4 + x.length - ((C ++ u32BE x.length) ++ x).length = 0 := by
      simp [u32BE_length]
      omega
    rw [this]
    rfl
  rw [if_neg (by rw [htrail]; simp)]
  have hdrop : (p.file ++ p.buffer).drop (C.length + 4) = x ++ [10] := by
    have hsplit : p.file ++ p.buffer = (C ++ u32BE x.length) ++ (x ++ [10]) := by
      rw [hrec]
      simp
    rw [hsplit, List.drop_left' (by simp [u32BE_length])]
  rw [hdrop, List.take_left' rfl]

/-- C1: Partition round-trip — for every byte string `x` written with
`Partition.write`, `readFrom` applied to the position returned by
`write x` returns `x`, both before and after a close/open cycle. The
statement quantifies over every partition state and payload, so it covers
payloads both smaller and larger than `writeBufferSize` (including payloads
that exceed the buffer and are flushed directly). -/
theorem partition_write_readFrom_roundtrip (p : Partition) (x : List Nat)
    (hopen : p.isOpen = true) (hdirty : p.dirtyReads = true)
    (hx : x.length < 2 ^ 32) :
    ∃ pos p', p.write x = some (pos, p') ∧
      p'.readFrom pos none = .ok x ∧
      p'.close.openP.readFrom pos none = .ok x := by
  obtain ⟨p', hw, hcomb, hopen', hdirty'⟩ := Partition.write_spec p x hopen
  have hpos : p.size = (p.file ++ p.buffer).length := by
    rw [Partition.size, List.length_append]
  refine ⟨p.size, p', hw, ?_, ?_⟩
  · rw [hpos]
    exact Partition.readFrom_append_ok p' (p.file ++ p.buffer) x hopen'
      (hdirty' ▸ hdirty) hcomb hx
  · rw [hpos]
    refine Partition.readFrom_append_ok _ (p.file ++ p.buffer) x rfl ?_ ?_ hx
    · rw [Partition.openP, Partition.close]
      exact hdirty' ▸ hdirty
    · rw [Partition.openP, Partition.close]
      simpa using hcomb

/-- Witness for C1 at a concrete input: a fresh open partition with a
4-byte write buffer and the 3-byte payload `foo`, whose 8-byte record is
flushed directly. -/
theorem partition_write_readFrom_roundtrip_witness :
    (Partition.mk [] [] true true 4).isOpen = true ∧
    (Partition.mk [] [] true true 4).dirtyReads = true ∧
    [102, 111, 111].length < 2 ^ 32 ∧
    (∃ pos p', (Partition.mk [] [] true true 4).write [102, 111, 111] =
        some (pos, p') ∧
      p'.readFrom pos none = .ok [102, 111, 111] ∧
      p'.close.openP.readFrom pos none = .ok [102, 111, 111]) :=
  ⟨rfl, rfl, by decide,
    partition_write_readFrom_roundtrip (Partition.mk [] [] true true 4)
      [102, 111, 111] rfl rfl (by decide)⟩

/-- C7: `Partition.truncate(position)` — a position at or beyond the
current size is a no-op; a negative position removes all content (size
becomes 0, the header being outside the modelled content bytes); a position
exactly at the start of an existing record drops the tail from there
onward, a result that persists across close/open also when records were
still buffered; every other position raises `InvalidBoundary`, which
returns no new state, leaving the partition unchanged. -/
theorem partition_truncate_spec (p : Partition) (pos : Int) :
    ((p.size : Int) ≤ pos → p.truncate pos = .ok p) ∧
    (pos < 0 → ∃ p', p.truncate pos = .ok p' ∧ p'.size = 0) ∧
    (0 ≤ pos → pos < (p.size : Int) →
      pos.toNat ∈ recStarts (p.file ++ p.buffer) →
      ∃ p', p.truncate pos = .ok p' ∧ (p'.size : Int) = pos ∧
        (p'.close.openP.size : Int) = pos) ∧
    (0 ≤ pos → pos < (p.size : Int) →
      pos.toNat ∉ recStarts (p.file ++ p.buffer) →
      p.truncate pos = .invalidBoundary) := by
  refine ⟨fun h => ?_, fun h => ?_, fun h0 hlt hmem => ?_, fun h0 hlt hmem => ?_⟩
  · rw [Partition.truncate, if_pos h]
  · rw [Partition.truncate, if_neg (by omega), if_pos h]
    exact ⟨_, rfl, by simp [Partition.size]⟩
  · rw [Partition.truncate, if_neg (by omega), if_neg (by omega), if_pos hmem]
    have hsz : p.size = (p.file ++ p.buffer).length := by
      rw [Partition.size, List.length_append]
    have htake : ((p.file ++ p.buffer).take pos.toNat).length = pos.toNat := by
      rw [List.length_take]
      omega
    refine ⟨_, rfl, ?_, ?_⟩
    · simp only [Partition.size, htake, List.length_nil]
      omega
    · simp only [Partition.close, Partition.openP, Partition.size,
        List.length_append, List.length_nil, htake]
      omega
  · rw [Partition.truncate, if_neg (by omega), if_neg (by omega), if_neg hmem]

/-- Witness for C7 at a concrete partition holding two flushed 8-byte
records: truncating at position 8 (the start of the second record) keeps
size 8, truncating at 5 is an invalid boundary, truncating at -3 clears
the content, and truncating at 100 is a no-op. -/
theorem partition_truncate_spec_witness :
    ((16 : Int) ≤ 100 →
      (Partition.mk (encodeRecord [102, 111, 111] ++ encodeRecord [98, 97, 114])
        [] true true 16384).truncate 100 =
        .ok (Partition.mk (encodeRecord [102, 111, 111] ++
          encodeRecord [98, 97, 114]) [] true true 16384)) ∧
    ((-3 : Int) < 0 ∧ ∃ p', (Partition.mk (encodeRecord [102, 111, 111] ++
        encodeRecord [98, 97, 114]) [] true true 16384).truncate (-3) =
        .ok p' ∧ p'.size = 0) ∧
    ((0 : Int) ≤ 8 ∧ (8 : Int) < 16 ∧
      (8 : Nat) ∈ recStarts (encodeRecord [102, 111, 111] ++
        encodeRecord [98, 97, 114] ++ []) ∧
      ∃ p', (Partition.mk (encodeRecord [102, 111, 111] ++
          encodeRecord [98, 97, 114]) [] true true 16384).truncate 8 =
          .ok p' ∧ (p'.size : Int) = 8 ∧ (p'.close.openP.size : Int) = 8) ∧
    ((0 : Int) ≤ 5 ∧ (5 : Int) < 16 ∧
      (5 : Nat) ∉ recStarts (encodeRecord [102, 111, 111] ++
        encodeRecord [98, 97, 114] ++ []) ∧
      (Partition.mk (encodeRecord [102, 111, 111] ++ encodeRecord [98, 97, 114])
        [] true true 16384).truncate 5 = .invalidBoundary) := by
  have h := partition_truncate_spec (Partition.mk (encodeRecord [102, 111, 111]
    ++ encodeRecord [98, 97, 114]) [] true true 16384)
  exact ⟨fun _ => (h 100).1 (by decide),
    ⟨by decide, (h (-3)).2.1 (by decide)⟩,
    ⟨by decide, by decide, by decide,
      (h 8).2.2.1 (by decide) (by decide) (by decide)⟩,
    ⟨by decide, by decide, by decide,
      (h 5).2.2.2 (by decide) (by decide) (by decide)⟩⟩

theorem IndexState.closeI_openI_length (idx : IndexState) :
    idx.closeI.openI.length = idx.length := by
  simp [IndexState.closeI, IndexState.openI, IndexState.length,
    IndexState.entries]

/-- C3: `Index.truncate(k)` — for an index of length `N`, `truncate k` with
`0 ≤ k ≤ N` leaves `length = k`; with `k < 0` it leaves `length = 0`; with
`k > N` the index is unchanged. The resulting length survives a close/open
cycle, buffered-but-unflushed dropped entries included (the model truncates
`file ++ buffer`, so the cut also drops buffered tail entries). -/
theorem index_truncate_spec (idx : IndexState) (k : Int) :
    (0 ≤ k → k ≤ (idx.length : Int) → ((idx.truncate k).length : Int) = k) ∧
    (k < 0 → (idx.truncate k).length = 0) ∧
    ((idx.length : Int) < k → idx.truncate k = idx) ∧
    ((idx.truncate k).closeI.openI.length = (idx.truncate k).length) := by
  refine ⟨fun h0 hk => ?_, fun h => ?_, fun h => ?_, ?_⟩
  · rw [IndexState.truncate]
    by_cases hge : (idx.length : Int) ≤ k
    · rw [if_pos hge]
      omega
    · rw [if_neg hge]
      have : IndexState.length
          { file := idx.entries.take k.toNat, buffer := [],
            isOpen := idx.isOpen } = (idx.entries.take k.toNat).length := by
        simp [IndexState.length, IndexState.entries]
      rw [this, List.length_take]
      have hlen : idx.entries.length = idx.length := rfl
      omega
  · rw [IndexState.truncate, if_neg (by omega)]
    have hk0 : k.toNat = 0 := by omega
    simp [IndexState.length, IndexState.entries, hk0]
  · rw [IndexState.truncate, if_pos (by omega)]
  · exact IndexState.closeI_openI_length _

/-- Witness for C3 on a five-entry index with two of the entries still
buffered: truncating at 2, at -5 and at 6. -/
theorem index_truncate_spec_witness :
    ((0 : Int) ≤ 2 ∧ (2 : Int) ≤ 5 ∧
      (((IndexState.mk [Entry.mk 1 1 0 0, Entry.mk 2 2 0 0, Entry.mk 3 3 0 0]
        [Entry.mk 4 4 0 0, Entry.mk 5 5 0 0] true).truncate 2).length : Int)
        = 2) ∧
    ((-5 : Int) < 0 ∧
      ((IndexState.mk [Entry.mk 1 1 0 0, Entry.mk 2 2 0 0, Entry.mk 3 3 0 0]
        [Entry.mk 4 4 0 0, Entry.mk 5 5 0 0] true).truncate (-5)).length
        = 0) ∧
    ((5 : Int) < 6 ∧
      (IndexState.mk [Entry.mk 1 1 0 0, Entry.mk 2 2 0 0, Entry.mk 3 3 0 0]
        [Entry.mk 4 4 0 0, Entry.mk 5 5 0 0] true).truncate 6 =
      IndexState.mk [Entry.mk 1 1 0 0, Entry.mk 2 2 0 0, Entry.mk 3 3 0 0]
        [Entry.mk 4 4 0 0, Entry.mk 5 5 0 0] true) ∧
    (((IndexState.mk [Entry.mk 1 1 0 0, Entry.mk 2 2 0 0, Entry.mk 3 3 0 0]
        [Entry.mk 4 4 0 0,
          Entry.mk 5 5 0 0] true).truncate 2).closeI.openI.length =
      ((IndexState.mk [Entry.mk 1 1 0 0, Entry.mk 2 2 0 0, Entry.mk 3 3 0 0]
        [Entry.mk 4 4 0 0, Entry.mk 5 5 0 0] true).truncate 2).length) := by
  have h2 := index_truncate_spec (IndexState.mk [Entry.mk 1 1 0 0,
    Entry.mk 2 2 0 0, Entry.mk 3 3 0 0]
    [Entry.mk 4 4 0 0, Entry.mk 5 5 0 0] true) 2
  have hm := index_truncate_spec (IndexState.mk [Entry.mk 1 1 0 0,
    Entry.mk 2 2 0 0, Entry.mk 3 3 0 0]
    [Entry.mk 4 4 0 0, Entry.mk 5 5 0 0] true) (-5)
  have h6 := index_truncate_spec (IndexState.mk [Entry.mk 1 1 0 0,
    Entry.mk 2 2 0 0, Entry.mk 3 3 0 0]
    [Entry.mk 4 4 0 0, Entry.mk 5 5 0 0] true) 6
  exact ⟨⟨by decide, by decide, h2.1 (by decide) (by decide)⟩,
    ⟨by decide, hm.2.1 (by decide)⟩,
    ⟨by decide, h6.2.2.1 (by decide)⟩,
    h2.2.2.2⟩

/-- C6: `Index.range(from, to)` is inclusive on both ends — for
`1 ≤ a ≤ b ≤ length` (after normalization of negative endpoints, which
count from the end) the result has exactly `b - a + 1` entries, namely the
entries of slots `a..b` in order; the call returns the `false` sentinel
(`none`) whenever a normalized endpoint falls outside `[1, length]`, when
`from > to`, when an argument is non-numeric, or when the index is
closed. -/
theorem index_range_spec (idx : IndexState) :
    (idx.isOpen = false → ∀ a b, idx.range a b = none) ∧
    (∀ b, idx.range .nan b = none) ∧
    (∀ a, idx.range a .nan = none) ∧
    (∀ f t : Int,
      ¬(1 ≤ normEndpoint idx.length f ∧
        normEndpoint idx.length f ≤ normEndpoint idx.length t ∧
        normEndpoint idx.length t ≤ (idx.length : Int)) →
      idx.range (.num f) (.num t) = none) ∧
    (∀ f t : Int, idx.isOpen = true →
      1 ≤ normEndpoint idx.length f →
      normEndpoint idx.length f ≤ normEndpoint idx.length t →
      normEndpoint idx.length t ≤ (idx.length : Int) →
      ∃ l, idx.range (.num f) (.num t) = some l ∧
        (l.length : Int) =
          normEndpoint idx.length t - normEndpoint idx.length f + 1 ∧
        ∀ j : Nat,
          (j : Int) < normEndpoint idx.length t - normEndpoint idx.length f + 1 →
          l[j]? =
            idx.entries[(normEndpoint idx.length f).toNat - 1 + j]?) := by
  refine ⟨fun h a b => ?_, fun b => ?_, fun a => ?_,
    fun f t hbad => ?_, fun f t hopen h1 h2 h3 => ?_⟩
  · cases a <;> cases b <;> simp [IndexState.range, h]
  · cases b <;> simp [IndexState.range]
  · cases a <;> simp [IndexState.range]
  · have hv : validRange (normEndpoint idx.length f)
        (normEndpoint idx.length t) idx.length = false := by
      rw [validRange]
      simpa using hbad
    by_cases h : idx.isOpen = false
    · simp [IndexState.range, h]
    · simp [IndexState.range, h, hv]
  · have hv : validRange (normEndpoint idx.length f)
        (normEndpoint idx.length t) idx.length = true := by
      rw [validRange]
      simp only [decide_eq_true_eq]
      exact ⟨h1, h2, h3⟩
    have hne : ¬idx.isOpen = false := by rw [hopen]; simp
    simp only [IndexState.range, if_neg hne, hv, if_true]
    set lo := normEndpoint idx.length f with hlo
    set hi := normEndpoint idx.length t with hhi
    have hents : idx.entries.length = idx.length := rfl
    refine ⟨_, rfl, ?_, ?_⟩
    · rw [List.length_drop, List.length_take]
      omega
    · intro j hj
      rw [List.getElem?_drop, List.getElem?_take]
      rw [if_pos (by omega)]

/-- Witness for C6 on an open three-entry index: the range `(-2, 3)`
normalizes to `(2, 3)` and returns the last two entries. -/
theorem index_range_spec_witness :
    ((IndexState.mk [Entry.mk 1 1 0 0, Entry.mk 2 2 0 0, Entry.mk 3 3 0 0]
        [] true).isOpen = true ∧
      1 ≤ normEndpoint 3 (-2) ∧
      normEndpoint 3 (-2) ≤ normEndpoint 3 3 ∧
      normEndpoint 3 3 ≤ (3 : Int) ∧
      ∃ l, (IndexState.mk [Entry.mk 1 1 0 0, Entry.mk 2 2 0 0,
          Entry.mk 3 3 0 0] [] true).range (.num (-2)) (.num 3) = some l ∧
        (l.length : Int) = normEndpoint 3 3 - normEndpoint 3 (-2) + 1 ∧
        ∀ j : Nat, (j : Int) < normEndpoint 3 3 - normEndpoint 3 (-2) + 1 →
          l[j]? = (IndexState.mk [Entry.mk 1 1 0 0, Entry.mk 2 2 0 0,
            Entry.mk 3 3 0 0] [] true).entries[(normEndpoint 3 (-2)).toNat
              - 1 + j]?) ∧
    (IndexState.mk [Entry.mk 1 1 0 0, Entry.mk 2 2 0 0, Entry.mk 3 3 0 0]
      [] true).range (.num 2) (.num 1) = none ∧
    (IndexState.mk [Entry.mk 1 1 0 0, Entry.mk 2 2 0 0, Entry.mk 3 3 0 0]
      [] true).range .nan (.num 1) = none ∧
    (IndexState.mk [Entry.mk 1 1 0 0, Entry.mk 2 2 0 0, Entry.mk 3 3 0 0]
      [] false).range (.num 1) (.num 1) = none := by
  have h := index_range_spec (IndexState.mk [Entry.mk 1 1 0 0,
    Entry.mk 2 2 0 0, Entry.mk 3 3 0 0] [] true)
  have hc := index_range_spec (IndexState.mk [Entry.mk 1 1 0 0,
    Entry.mk 2 2 0 0, Entry.mk 3 3 0 0] [] false)
  refine ⟨⟨rfl, by decide, by decide, by decide, ?_⟩, ?_, ?_, ?_⟩
  · exact h.2.2.2.2 (-2) 3 rfl (by decide) (by decide) (by decide)
  · exact h.2.2.2.1 2 1 (by decide)
  · exact h.2.1 (.num 1)
  · exact hc.1 rfl (.num 1) (.num 1)

theorem bsearchMax_go (num : Nat → Nat) (target n : Nat)
    (mono : ∀ i j, 1 ≤ i → i ≤ j → j ≤ n → num i ≤ num j) :
    ∀ fuel low high, 1 ≤ low → high ≤ n → high + 1 ≤ low + fuel →
      (∀ i, 1 ≤ i → i < low → num i ≤ target) →
      (∀ i, high < i → i ≤ n → target < num i) →
      bsearchMax num target fuel low high ≤ n ∧
      ∀ i, 1 ≤ i → i ≤ n →
        (num i ≤ target ↔ i ≤ bsearchMax num target fuel low high) := by
  intro fuel
  induction fuel with
  | zero =>
    intro low high h1 h2 h3 hlo hhi
    rw [bsearchMax]
    refine ⟨h2, fun i hi1 hin => ⟨fun hle => ?_, fun hih => hlo i hi1 (by omega)⟩⟩
    by_contra hgt
    exact absurd hle (not_le.mpr (hhi i (by omega) hin))
  | succ fuel ih =>
    intro low high h1 h2 h3 hlo hhi
    rw [bsearchMax]
    by_cases hlh : high < low
    · rw [if_pos hlh]
      refine ⟨h2, fun i hi1 hin =>
        ⟨fun hle => ?_, fun hih => hlo i hi1 (by omega)⟩⟩
      by_contra hgt
      exact absurd hle (not_le.mpr (hhi i (by omega) hin))
    · rw [if_neg hlh]
      by_cases hm : num ((low + high) / 2) ≤ target
      · rw [if_pos hm]
        refine ih ((low + high) / 2 + 1) high (by omega) h2 (by omega) ?_ hhi
        intro i hi1 hilt
        exact le_trans (mono i ((low + high) / 2) hi1 (by omega) (by omega)) hm
      · rw [if_neg hm]
        refine ih low ((low + high) / 2 - 1) h1 (by omega) (by omega) hlo ?_
        intro i higt hin
        have hmi : num ((low + high) / 2) ≤ num i :=
          mono ((low + high) / 2) i (by omega) (by omega) hin
        omega

theorem bsearchMin_go (num : Nat → Nat) (target n : Nat)
    (mono : ∀ i j, 1 ≤ i → i ≤ j → j ≤ n → num i ≤ num j) :
    ∀ fuel low high, 1 ≤ low → high ≤ n → high + 1 ≤ low + fuel →
      (∀ i, 1 ≤ i → i < low → num i < target) →
      (∀ i, high < i → i ≤ n → target ≤ num i) →
      (bsearchMin num target n fuel low high = 0 ∧
        ∀ i, 1 ≤ i → i ≤ n → num i < target) ∨
      (1 ≤ bsearchMin num target n fuel low high ∧
        bsearchMin num target n fuel low high ≤ n ∧
        ∀ i, 1 ≤ i → i ≤ n →
          (target ≤ num i ↔ bsearchMin num target n fuel low high ≤ i)) := by
  intro fuel
  induction fuel with
  | zero =>
    intro low high h1 h2 h3 hlo hhi
    rw [bsearchMin]
    by_cases hnl : n < low
    · rw [if_pos hnl]
      exact Or.inl ⟨rfl, fun i hi1 hin => hlo i hi1 (by omega)⟩
    · rw [if_neg hnl]
      refine Or.inr ⟨h1, by omega, fun i hi1 hin =>
        ⟨fun hle => ?_, fun hih => hhi i (by omega) hin⟩⟩
      by_contra hgt
      exact absurd hle (not_le.mpr (hlo i hi1 (by omega)))
  | succ fuel ih =>
    intro low high h1 h2 h3 hlo hhi
    rw [bsearchMin]
    by_cases hlh : high < low
    · rw [if_pos hlh]
      by_cases hnl : n < low
      · rw [if_pos hnl]
        exact Or.inl ⟨rfl, fun i hi1 hin => hlo i hi1 (by omega)⟩
      · rw [if_neg hnl]
        refine Or.inr ⟨h1, by omega, fun i hi1 hin =>
          ⟨fun hle => ?_, fun hih => hhi i (by omega) hin⟩⟩
        by_contra hgt
        exact absurd hle (not_le.mpr (hlo i hi1 (by omega)))
    · rw [if_neg hlh]
      by_cases hm : num ((low + high) / 2) < target
      · rw [if_pos hm]
        refine ih ((low + high) / 2 + 1) high (by omega) h2 (by omega) ?_ hhi
        intro i hi1 hilt
        have hmi : num i ≤ num ((low + high) / 2) :=
          mono i ((low + high) / 2) hi1 (by omega) (by omega)
        omega
      · rw [if_neg hm]
        refine ih low ((low + high) / 2 - 1) h1 (by omega) (by omega) hlo ?_
        intro i higt hin
        have hmi : num ((low + high) / 2) ≤ num i :=
          mono ((low + high) / 2) i (by omega) (by omega) hin
        omega

/-- C2: `Index.find` binary search — for an index whose entries carry
monotonically non-decreasing numbers, `find(target)` with `min=false`
returns the largest slot `i` with `entry[i].number ≤ target` (0 if no such
slot), and with `min=true` the smallest slot `i` with
`entry[i].number ≥ target` (0 if no such slot); in particular on 50
entries with numbers `i ↦ 2 i`, `find 25 = 12` and `find 25 min = 13`.
The largest/smallest characterizations are stated as: `number ≤ target`
holds exactly at the slots at or below the result, respectively
`number ≥ target` exactly at the slots at or above it. -/
theorem index_find_spec (idx : IndexState) (target : Nat)
    (hmono : (idx.entries.map Entry.number).Sorted (· ≤ ·)) :
    (idx.find target false ≤ idx.length ∧
      ∀ i, 1 ≤ i → i ≤ idx.length →
        ((idx.entries.map Entry.number).getD (i - 1) 0 ≤ target ↔
          i ≤ idx.find target false)) ∧
    ((idx.find target true = 0 ∧ ∀ i, 1 ≤ i → i ≤ idx.length →
        (idx.entries.map Entry.number).getD (i - 1) 0 < target) ∨
      (1 ≤ idx.find target true ∧ idx.find target true ≤ idx.length ∧
        ∀ i, 1 ≤ i → i ≤ idx.length →
          (target ≤ (idx.entries.map Entry.number).getD (i - 1) 0 ↔
            idx.find target true ≤ i))) ∧
    (mapperIndex50.find 25 false = 12 ∧ mapperIndex50.find 25 true = 13) := by
  have hlen : (idx.entries.map Entry.number).length = idx.length := by
    rw [List.length_map]
    rfl
  have mono : ∀ i j, 1 ≤ i → i ≤ j → j ≤ (idx.entries.map Entry.number).length →
      (idx.entries.map Entry.number).getD (i - 1) 0 ≤
        (idx.entries.map Entry.number).getD (j - 1) 0 := by
    intro i j h1 h2 h3
    rcases Nat.eq_or_lt_of_le h2 with heq | hlt
    · rw [heq]
    · have hi : i - 1 < (idx.entries.map Entry.number).length := by omega
      have hj : j - 1 < (idx.entries.map Entry.number).length := by omega
      rw [List.getD_eq_getElem _ 0 hi, List.getD_eq_getElem _ 0 hj]
      exact List.pairwise_iff_getElem.mp hmono (i - 1) (j - 1) hi hj (by omega)
  refine ⟨?_, ?_, by decide, by decide⟩
  · have h := bsearchMax_go
      (fun i => (idx.entries.map Entry.number).getD (i - 1) 0) target
      (idx.entries.map Entry.number).length mono
      ((idx.entries.map Entry.number).length + 1) 1
      (idx.entries.map Entry.number).length
      (le_refl 1) (le_refl _) (by omega)
      (fun i hi1 hilt => by omega) (fun i hgt hle => by omega)
    rw [hlen] at h
    have hfind : idx.find target false = bsearchMax
        (fun i => (idx.entries.map Entry.number).getD (i - 1) 0) target
        ((idx.entries.map Entry.number).length + 1) 1
        (idx.entries.map Entry.number).length := rfl
    rw [hfind, hlen]
    exact ⟨h.1, fun i hi1 hin => h.2 i hi1 hin⟩
  · have h := bsearchMin_go
      (fun i => (idx.entries.map Entry.number).getD (i - 1) 0) target
      (idx.entries.map Entry.number).length mono
      ((idx.entries.map Entry.number).length + 1) 1
      (idx.entries.map Entry.number).length
      (le_refl 1) (le_refl _) (by omega)
      (fun i hi1 hilt => by omega) (fun i hgt hle => by omega)
    rw [hlen] at h
    have hfind : idx.find target true = bsearchMin
        (fun i => (idx.entries.map Entry.number).getD (i - 1) 0) target
        (idx.entries.map Entry.number).length
        ((idx.entries.map Entry.number).length + 1) 1
        (idx.entries.map Entry.number).length := rfl
    rw [hfind, hlen]
    exact h

/-- Witness for C2 on the 50-entry index with numbers `i ↦ 2 i` (the
sortedness hypothesis holds by evaluation, and the concrete conjunct gives
`find 25 = 12`, `find 25 min = 13`). -/
theorem index_find_spec_witness :
    (mapperIndex50.entries.map Entry.number).Sorted (· ≤ ·) ∧
    (mapperIndex50.find 25 false = 12 ∧ mapperIndex50.find 25 true = 13) :=
  ⟨by decide, (index_find_spec mapperIndex50 25 (by decide)).2.2⟩

theorem encodeEntry_length (e : Entry) : (encodeEntry e).length = 20 := rfl

theorem encodeEntries_length (es : List Entry) :
    (encodeEntries es).length = 20 * es.length := by
  induction es with
  | nil => rfl
  | cons e es ih =>
    have hcons : encodeEntries (e :: es) = encodeEntry e ++ encodeEntries es :=
      rfl
    rw [hcons, List.length_append, encodeEntry_length, ih, List.length_cons]
    ring

theorem buildIndexFile_length (meta : List Nat) (es : List Entry) :
    (buildIndexFile meta es).length = 13 + meta.length + 20 * es.length := by
  rw [buildIndexFile]
  simp [magicIdx, u32BE, encodeEntries_length]
  omega

theorem openIndex_build (meta : List Nat) (es : List Entry) (extra : List Nat)
    (provided : Option (List Nat)) (hm : meta.length + 1 < 2 ^ 32) :
    openIndex (buildIndexFile meta es ++ extra) provided =
      match provided with
      | some m =>
        if m ≠ meta then .error .indexMetadataMismatch
        else openIndexBody (buildIndexFile meta es ++ extra)
          (meta.length + 1) meta
      | none => openIndexBody (buildIndexFile meta es ++ extra)
          (meta.length + 1) meta := by
  have hF : buildIndexFile meta es ++ extra =
      magicIdx ++ (u32BE (meta.length + 1) ++
        ((meta ++ [10]) ++ (encodeEntries es ++ extra))) := by
    simp [buildIndexFile]
  have hlenF : (buildIndexFile meta es ++ extra).length =
      13 + meta.length + 20 * es.length + extra.length := by
    rw [List.length_append, buildIndexFile_length]
  have h6 : (buildIndexFile meta es ++ extra).take 6 = magicIdx.take 6 := by
    rw [hF, List.take_append_eq_append_take]
    simp [magicIdx]
  have h8 : (buildIndexFile meta es ++ extra).take 8 = magicIdx := by
    rw [hF, List.take_append_eq_append_take]
    simp [magicIdx]
  have hdec : decodeU32At (buildIndexFile meta es ++ extra) 8 =
      meta.length + 1 := by
    rw [hF]
    exact decodeU32At_encode magicIdx _ _ 8 rfl hm
  have hdrop12 : (buildIndexFile meta es ++ extra).drop 12 =
      (meta ++ [10]) ++ (encodeEntries es ++ extra) := by
    have hflat : buildIndexFile meta es ++ extra =
        (magicIdx ++ u32BE (meta.length + 1)) ++
          ((meta ++ [10]) ++ (encodeEntries es ++ extra)) := by
      simp [buildIndexFile]
    rw [hflat, List.drop_left' (by simp [magicIdx, u32BE])]
  have hblob : ((buildIndexFile meta es ++ extra).drop 12).take
      (meta.length + 1) = meta ++ [10] := by
    rw [hdrop12, List.take_append_eq_append_take,
      List.take_of_length_le (by simp)]
    simp
  rw [openIndex]
  rw [if_neg (by omega)]
  rw [if_neg (by rw [h6]; simp)]
  rw [if_neg (by rw [h8]; simp)]
  simp only [hdec, hblob]
  rw [if_neg (by omega)]
  rw [if_neg (by omega)]
  have hgetD : (meta ++ [10]).getD (meta.length + 1 - 1) 0 = 10 := by
    rw [Nat.add_sub_cancel,
      List.getD_append_right _ _ _ _ (le_refl _), Nat.sub_self]
    rfl
  rw [if_neg (by rw [hgetD]; simp)]
  have hmeta : (meta ++ [10]).take (meta.length + 1 - 1) = meta := by
    rw [Nat.add_sub_cancel]
    exact List.take_left' rfl
  rw [hmeta]

theorem openIndexBody_build (meta : List Nat) (es : List Entry) :
    openIndexBody (buildIndexFile meta es) (meta.length + 1) meta =
      .ok (IndexHandle.mk meta (encodeEntries es)) := by
  have hdropE : (buildIndexFile meta es).drop (12 + (meta.length + 1)) =
      encodeEntries es := by
    have hflat : buildIndexFile meta es =
        ((magicIdx ++ u32BE (meta.length + 1)) ++ (meta ++ [10])) ++
          encodeEntries es := by
      simp [buildIndexFile]
    rw [hflat, List.drop_left' (by simp [magicIdx, u32BE]; omega)]
  rw [openIndexBody, buildIndexFile_length]
  rw [if_neg (by simp [entrySize]; omega)]
  rw [hdropE]

/-- C5: index metadata binding — metadata supplied at creation is
persisted in the file and recovered unchanged on reopen (with no blob or
the identical blob presented); presenting any differing blob makes the
open fail with `IndexMetadataMismatch` (an error result, so no open handle
is produced and the index remains closed). -/
theorem index_metadata_spec (meta : List Nat) (es : List Entry)
    (m' : List Nat) (hm : meta.length + 1 < 2 ^ 32) :
    openIndex (buildIndexFile meta es) none =
      .ok (IndexHandle.mk meta (encodeEntries es)) ∧
    openIndex (buildIndexFile meta es) (some meta) =
      .ok (IndexHandle.mk meta (encodeEntries es)) ∧
    (m' ≠ meta → openIndex (buildIndexFile meta es) (some m') =
      .error .indexMetadataMismatch) := by
  have hnone := openIndex_build meta es [] none hm
  have hsome := openIndex_build meta es [] (some meta) hm
  have hne := openIndex_build meta es [] (some m') hm
  rw [List.append_nil] at hnone hsome hne
  refine ⟨?_, ?_, fun hne' => ?_⟩
  · rw [hnone, openIndexBody_build]
  · rw [hsome]
    show (if meta ≠ meta then
        (Except.error IndexError.indexMetadataMismatch :
          Except IndexError IndexHandle)
      else openIndexBody (buildIndexFile meta es) (meta.length + 1) meta) =
      Except.ok (IndexHandle.mk meta (encodeEntries es))
    rw [if_neg (by simp), openIndexBody_build]
  · rw [hne]
    show (if m' ≠ meta then
        (Except.error IndexError.indexMetadataMismatch :
          Except IndexError IndexHandle)
      else openIndexBody (buildIndexFile meta es) (meta.length + 1) meta) =
      Except.error IndexError.indexMetadataMismatch
    rw [if_pos hne']

/-- Witness for C5: an index created with the one-byte metadata blob `m`
and no entries reopens cleanly with no blob or the same blob, and fails
with `IndexMetadataMismatch` when the blob `n` is presented. -/
theorem index_metadata_spec_witness :
    ([109] : List Nat).length + 1 < 2 ^ 32 ∧
    ([110] : List Nat) ≠ [109] ∧
    openIndex (buildIndexFile [109] []) none =
      .ok (IndexHandle.mk [109] (encodeEntries [])) ∧
    openIndex (buildIndexFile [109] []) (some [109]) =
      .ok (IndexHandle.mk [109] (encodeEntries [])) ∧
    openIndex (buildIndexFile [109] []) (some [110]) =
      .error .indexMetadataMismatch := by
  have h := index_metadata_spec [109] [] [110] (by decide)
  exact ⟨by decide, by decide, h.1, h.2.1, h.2.2 (by decide)⟩

theorem Partition.readFrom_corrupt (p : Partition) (pos : Nat)
    (hopen : p.isOpen = true) (hdirty : p.dirtyReads = true)
    (hbuf : p.buffer = [])
    (h4 : pos + 4 ≤ p.file.length)
    (htrail : p.file.getD (pos + 4 + decodeU32At p.file pos) 0 ≠ 10) :
    p.readFrom pos none = .corrupt := by
  have hsize : p.size = p.file.length := by
    rw [Partition.size, hbuf, List.length_nil]
    omega
  rw [Partition.readFrom, hopen, hdirty, hbuf]
  simp only [Bool.true_eq_false, if_false, if_true, hsize, List.append_nil]
  rw [if_neg (by omega), if_neg (by simp), if_neg (by omega)]
  rw [readPayload, if_pos htrail]

/-- C4: corruption detection — reading at the header position of a record
whose trailing bytes were truncated (`1 ≤ t ≤ payload length + 1` bytes
removed from the end of the file, so the tear is inside the payload or
trailer) yields `CorruptFile`; and appending extra bytes whose count is
not a multiple of the entry size to a flushed, closed index file makes the
next open fail with `IndexFileCorrupt`. -/
theorem corruption_detection :
    (∀ (recs x : List Nat) (t w : Nat),
      x.length < 2 ^ 32 → 1 ≤ t → t ≤ x.length + 1 →
      (Partition.mk ((recs ++ encodeRecord x).take
          (recs.length + (x.length + 5) - t)) [] true true w).readFrom
        recs.length none = .corrupt) ∧
    (∀ (meta : List Nat) (es : List Entry) (extra : List Nat),
      meta.length + 1 < 2 ^ 32 → extra.length % entrySize ≠ 0 →
      openIndex (buildIndexFile meta es ++ extra) none =
        .error .indexFileCorrupt) := by
  constructor
  · intro recs x t w hx ht1 ht2
    have hfile : (recs ++ encodeRecord x).take
        (recs.length + (x.length + 5) - t) =
        recs ++ (u32BE x.length ++ ((x ++ [10]).take (x.length + 1 - t))) := by
      rw [List.take_append_eq_append_take,
        List.take_of_length_le (by omega)]
      congr 1
      have hsub : recs.length + (x.length + 5) - t - recs.length =
          x.length + 5 - t := by omega
      rw [hsub, encodeRecord, List.take_append_eq_append_take,
        List.take_of_length_le (by rw [u32BE_length]; omega), u32BE_length]
      have harg : x.length + 5 - t - 4 = x.length + 1 - t := by omega
      rw [harg]
    have hflen : ((recs ++ encodeRecord x).take
        (recs.length + (x.length + 5) - t)).length =
        recs.length + 4 + (x.length + 1 - t) := by
      rw [hfile]
      simp [u32BE]
      omega
    apply Partition.readFrom_corrupt _ _ rfl rfl rfl
    · rw [hflen]
      omega
    · have hdec : decodeU32At ((recs ++ encodeRecord x).take
          (recs.length + (x.length + 5) - t)) recs.length = x.length := by
        rw [hfile]
        exact decodeU32At_encode recs _ x.length recs.length rfl hx
      rw [hdec, List.getD_eq_default _ _ (by rw [hflen]; omega)]
      simp
  · intro meta es extra hm hx
    rw [openIndex_build meta es extra none hm]
    show openIndexBody (buildIndexFile meta es ++ extra) (meta.length + 1)
      meta = .error .indexFileCorrupt
    rw [openIndexBody, if_pos ?_]
    rw [List.length_append, buildIndexFile_length, entrySize]
    rw [entrySize] at hx
    omega

/-- Witness for C4: a partition file holding one `foobar` record with its
last three bytes cut off reads back `CorruptFile` at position 0, and an
index file with a one-byte metadata blob and no entries, with three extra
bytes appended, opens to `IndexFileCorrupt`. -/
theorem corruption_detection_witness :
    (([102, 111, 111, 98, 97, 114] : List Nat).length < 2 ^ 32 ∧
      1 ≤ 3 ∧ 3 ≤ ([102, 111, 111, 98, 97, 114] : List Nat).length + 1 ∧
      (Partition.mk
        (([] ++ encodeRecord [102, 111, 111, 98, 97, 114]).take
          (List.length ([] : List Nat) + (([102, 111, 111, 98, 97,
            114] : List Nat).length + 5) - 3)) [] true true 16384).readFrom
        (List.length ([] : List Nat)) none = .corrupt) ∧
    (([109] : List Nat).length + 1 < 2 ^ 32 ∧
      ([102, 111, 111] : List Nat).length % entrySize ≠ 0 ∧
      openIndex (buildIndexFile [109] [] ++ [102, 111, 111]) none =
        .error .indexFileCorrupt) := by
  have h := corruption_detection
  exact ⟨⟨by decide, by decide, by decide,
      h.1 [] [102, 111, 111, 98, 97, 114] 3 16384 (by decide) (by decide)
        (by decide)⟩,
    ⟨by decide, by decide, h.2 [109] [] [102, 111, 111] (by decide)
      (by decide)⟩⟩

/-- C8: consumer auto-start — attaching a `data` listener to a stopped
consumer starts it: it enters the tailing state, replays the documents
after its position (slots `position + 1 .. length`) in order, a manual
`start()` afterwards is a no-op changing nothing (so no emission is
duplicated), and each new write is then emitted in arrival order. -/
theorem consumer_autostart_spec (idx : List Nat) (c : ConsumerState)
    (hstopped : c.started = false) :
    (c.addDataListener idx).started = true ∧
    (c.addDataListener idx).emitted = c.emitted ++ idx.drop c.position ∧
    ConsumerState.start idx (c.addDataListener idx) = c.addDataListener idx ∧
    (∀ d, (c.addDataListener idx).newDocument d =
      ConsumerState.mk ((c.addDataListener idx).position + 1) true
        ((c.addDataListener idx).emitted ++ [d])) := by
  have hstart : c.addDataListener idx =
      ConsumerState.mk idx.length true (c.emitted ++ idx.drop c.position) := by
    rw [ConsumerState.addDataListener, ConsumerState.start, if_neg (by
      rw [hstopped]; simp)]
  refine ⟨by rw [hstart], by rw [hstart], ?_, fun d => ?_⟩
  · rw [hstart, ConsumerState.start, if_pos rfl]
  · rw [hstart, ConsumerState.newDocument, if_pos rfl]

/-- Witness for C8: a stopped consumer at position 1 over a three-document
index auto-starts on listener attach, replaying documents 2 and 3. -/
theorem consumer_autostart_spec_witness :
    (ConsumerState.mk 1 false [10]).started = false ∧
    ((ConsumerState.mk 1 false [10]).addDataListener [10, 20, 30]).started
      = true ∧
    ((ConsumerState.mk 1 false [10]).addDataListener [10, 20, 30]).emitted
      = [10] ++ [10, 20, 30].drop 1 ∧
    ConsumerState.start [10, 20, 30]
        ((ConsumerState.mk 1 false [10]).addDataListener [10, 20, 30]) =
      (ConsumerState.mk 1 false [10]).addDataListener [10, 20, 30] ∧
    (((ConsumerState.mk 1 false [10]).addDataListener
        [10, 20, 30]).newDocument 40) =
      ConsumerState.mk (((ConsumerState.mk 1 false [10]).addDataListener
        [10, 20, 30]).position + 1) true
        (((ConsumerState.mk 1 false [10]).addDataListener
          [10, 20, 30]).emitted ++ [40]) := by
  have h := consumer_autostart_spec [10, 20, 30]
    (ConsumerState.mk 1 false [10]) rfl
  exact ⟨rfl, h.1, h.2.1, h.2.2.1, h.2.2.2 40⟩

/-- C9: optimistic concurrency in `EventStore.commit` — with an
`expectedVersion` other than `ExpectedVersion.Any`, a stream index length
differing from it makes the commit fail with `OptimisticConcurrencyError`
and nothing is written (the error carries no successor state); when the
lengths agree, or the expected version is `Any`, all events are appended
to storage. A missing stream is created with length 0 before the check,
so its length reads as `(lookup).getD 0`. -/
theorem commit_optimistic_concurrency (st : EventStoreState) (name : String)
    (events : List Nat) (ev : Int) (hname : name ≠ "") :
    (ev ≠ ExpectedVersionAny →
      (((st.streams.lookup name).getD 0 : Int) ≠ ev →
        commit st name events ev = .error .optimisticConcurrency) ∧
      (((st.streams.lookup name).getD 0 : Int) = ev →
        ∃ st', commit st name events ev = .ok st' ∧
          st'.written = st.written ++ events)) ∧
    (ev = ExpectedVersionAny →
      ∃ st', commit st name events ev = .ok st' ∧
        st'.written = st.written ++ events) := by
  have hget : (((if (st.streams.lookup name).isNone then
      EventStoreState.mk ((name, 0) :: st.streams) st.written
      else st).streams.lookup name).getD 0 : Nat) =
      (st.streams.lookup name).getD 0 := by
    cases h : st.streams.lookup name with
    | none => simp [h, List.lookup]
    | some v => simp [h]
  have hwrit : (if (st.streams.lookup name).isNone then
      EventStoreState.mk ((name, 0) :: st.streams) st.written
      else st).written = st.written := by
    cases h : st.streams.lookup name <;> simp [h]
  rw [commit]
  rw [if_neg hname]
  simp only [hget, hwrit]
  refine ⟨fun hev => ⟨fun hne => ?_, fun heq => ?_⟩, fun hany => ?_⟩
  · rw [if_pos hev, if_pos hne]
  · rw [if_pos hev, if_neg (by rw [heq]; simp)]
    exact ⟨_, rfl, rfl⟩
  · rw [if_neg (by rw [hany]; simp)]
    exact ⟨_, rfl, rfl⟩

/-- Witness for C9: committing one event to stream `s` known at length 2 —
expected version 1 errors with `OptimisticConcurrencyError`, expected
version 2 and `Any` both append the event. -/
theorem commit_optimistic_concurrency_witness :
    ("s" : String) ≠ "" ∧
    ((1 : Int) ≠ ExpectedVersionAny ∧
      (((EventStoreState.mk [("s", 2)] [7]).streams.lookup "s").getD 0 : Int)
        ≠ 1 ∧
      commit (EventStoreState.mk [("s", 2)] [7]) "s" [9] 1 =
        .error .optimisticConcurrency) ∧
    ((2 : Int) ≠ ExpectedVersionAny ∧
      (((EventStoreState.mk [("s", 2)] [7]).streams.lookup "s").getD 0 : Int)
        = 2 ∧
      ∃ st', commit (EventStoreState.mk [("s", 2)] [7]) "s" [9] 2 =
        .ok st' ∧ st'.written = [7] ++ [9]) ∧
    ((-1 : Int) = ExpectedVersionAny ∧
      ∃ st', commit (EventStoreState.mk [("s", 2)] [7]) "s" [9] (-1) =
        .ok st' ∧ st'.written = [7] ++ [9]) := by
  have h1 := commit_optimistic_concurrency (EventStoreState.mk [("s", 2)] [7])
    "s" [9] 1 (by decide)
  have h2 := commit_optimistic_concurrency (EventStoreState.mk [("s", 2)] [7])
    "s" [9] 2 (by decide)
  have hany := commit_optimistic_concurrency
    (EventStoreState.mk [("s", 2)] [7]) "s" [9] (-1) (by decide)
  refine ⟨by decide, ⟨by decide, by decide, ?_⟩, ⟨by decide, by decide, ?_⟩,
    by decide, ?_⟩
  · exact (h1.1 (by decide)).1 (by decide)
  · exact (h2.1 (by decide)).2 (by decide)
  · exact hany.2 (by decide)

/-- C10: `EventStore.getEventStream` on a stream name not in the store's
stream map returns the `false` sentinel (`none`) — no error, no stream
creation — and the stream map (indeed the whole store state) is
unchanged. -/
theorem getEventStream_unknown (st : EventStoreState) (name : String)
    (minR maxR : Int) (h : st.streams.lookup name = none) :
    getEventStream st name minR maxR = (none, st) := by
  rw [getEventStream, if_pos (by rw [h]; rfl)]

/-- Witness for C10: a store with one stream `s` queried for the unknown
name `t`. -/
theorem getEventStream_unknown_witness :
    (EventStoreState.mk [("s", 2)] [7]).streams.lookup "t" = none ∧
    getEventStream (EventStoreState.mk [("s", 2)] [7]) "t" 0 (-1) =
      (none, EventStoreState.mk [("s", 2)] [7]) :=
  ⟨by decide, getEventStream_unknown (EventStoreState.mk [("s", 2)] [7])
    "t" 0 (-1) (by decide)⟩

end NES
